import Mathlib

/-!
Verification of the core of the WhatsApp chat analyzer (`src/app.py`).

Strings are modelled as `List Char`.  The line pattern
`(\d{1,2}/\d{1,2}/\d{2,4}), (\d{2}:\d{2}) - ([^:]+): (.+)` applied with
`re.match` is modelled by `matchLine` (the pattern is deterministic on every
input once the bounded greedy digit groups are resolved against the literal
separators that follow them, so it is modelled as a straight-line scanner).
Python `datetime.strptime` with formats `%m/%d/%y` and `%d/%m/%Y` is
modelled by `strptime_mdy` / `strptime_dmY`, following the field regexes of
CPython's `_strptime` (`%m ~ 1[0-2]|0[1-9]|[1-9]`,
`%d ~ 3[01]|[12]\d|0[1-9]|[1-9]| [1-9]`, `%y ~ \d\d`, `%Y ~ \d\d\d\d`, full
match required) together with the day-of-month range check performed by the
`datetime` constructor and the century pivot of `%y` (00-68 ↦ 20xx,
69-99 ↦ 19xx).  `parse_chat` and `analyze_chat` mirror the functions of the
same names; the pandas data frame is modelled by `ChatDF` (the record rows
plus the derived `hour` column that `analyze_chat` assigns in place), and
`analyze_chat` returns, next to the three summaries, the state of the caller's
data-frame object after the call (pandas filtering `df[mask]` copies, so the
caller's object is mutated only when neither bound is given).
-/

/-- Calendar date as stored in the Python `datetime` produced by `strptime`
(the time-of-day part is always midnight and is omitted). -/
structure Date where
  year : Nat
  month : Nat
  day : Nat
deriving DecidableEq

/-- Python `datetime` order on the dates of §`parse_chat`: lexicographic on
(year, month, day). -/
def dateLe (a b : Date) : Bool :=
  decide (a.year < b.year ∨ (a.year = b.year ∧
    (a.month < b.month ∨ (a.month = b.month ∧ a.day ≤ b.day))))

/-- One parsed message: the dict appended to `messages` in `parse_chat`. -/
structure Record where
  date : Date
  time : List Char
  sender : List Char
  message : List Char
deriving DecidableEq

/-- The pandas data frame built by `parse_chat`: the record rows, plus the
derived `hour` column once `analyze_chat` has assigned it. -/
structure ChatDF where
  rows : List Record
  hour : Option (List Nat)
deriving DecidableEq

/-- Python `str.split(sep)` for a one-character separator (keeps empty
pieces, yields one piece even for the empty string). -/
def splitOnChar (sep : Char) : List Char → List (List Char)
  | [] => [[]]
  | c :: rest =>
    if c = sep then [] :: splitOnChar sep rest
    else
      match splitOnChar sep rest with
      | [] => [[c]]
      | s :: ss => (c :: s) :: ss

/-- The whitespace class of Python `str.strip()` (ASCII part; senders in
matched lines only ever carry these). -/
def isPySpace (c : Char) : Bool :=
  c == ' ' || c == '\t' || c == '\n' || c == '\r' || c == '\x0b' || c == '\x0c'

/-- Python `str.strip()`. -/
def pyStrip (cs : List Char) : List Char :=
  ((cs.dropWhile isPySpace).reverse.dropWhile isPySpace).reverse

/-- Numeric value of a digit character. -/
def digitVal (c : Char) : Nat := c.toNat - 48

/-- Python `int()` on a string of decimal digits. -/
def natOfDigits (l : List Char) : Nat :=
  l.foldl (fun a c => 10 * a + digitVal c) 0

/-! ### The line regex -/

/-- One greedy `\d{1,2}` group followed by a non-digit literal: succeeds
exactly when the maximal digit run at the head has length 1 or 2 (a third
digit makes both greedy alternatives fail against the literal that follows,
which is never a digit in the pattern being modelled). -/
def digits12 (cs : List Char) : Option (List Char × List Char) :=
  let d := cs.takeWhile Char.isDigit
  if d.length = 0 ∨ 2 < d.length then none
  else some (d, cs.dropWhile Char.isDigit)

/-- Greedy `\d{2,4}` followed by a non-digit literal. -/
def digits24 (cs : List Char) : Option (List Char × List Char) :=
  let d := cs.takeWhile Char.isDigit
  if d.length < 2 ∨ 4 < d.length then none
  else some (d, cs.dropWhile Char.isDigit)

/-- A literal character of the pattern. -/
def expectChar (c : Char) : List Char → Option (List Char)
  | [] => none
  | x :: rest => if x = c then some rest else none

/-- The `(\d{2}:\d{2})` group: the fixed-width counted digit groups admit no
backtracking, so the five characters are matched directly. -/
def time4 : List Char → Option (List Char × List Char)
  | a :: b :: ':' :: c :: d :: rest =>
    if a.isDigit ∧ b.isDigit ∧ c.isDigit ∧ d.isDigit then
      some ([a, b, ':', c, d], rest)
    else none
  | _ => none

/-- The `([^:]+)` sender group followed by the literal colon: the greedy run
of non-colon characters can never give characters back to the `:` literal,
so the group is the maximal non-colon run. -/
def senderTok (cs : List Char) : Option (List Char × List Char) :=
  let s := cs.takeWhile (fun c => c ≠ ':')
  if s.isEmpty then none else some (s, cs.dropWhile (fun c => c ≠ ':'))

/-- `re.match` of the full pattern
`(\d{1,2}/\d{1,2}/\d{2,4}), (\d{2}:\d{2}) - ([^:]+): (.+)`; returns the four
capture groups (date token, time token, raw sender, message).  `.` does not
match a newline, hence the final `takeWhile`; `re.match` only anchors at the
start, so trailing input after the greedy `(.+)` group is impossible only
up to the first newline. -/
def matchLine (cs : List Char) : Option (List Char × List Char × List Char × List Char) := do
  let (d1, r1) ← digits12 cs
  let r2 ← expectChar '/' r1
  let (d2, r3) ← digits12 r2
  let r4 ← expectChar '/' r3
  let (d3, r5) ← digits24 r4
  let r6 ← expectChar ',' r5
  let r7 ← expectChar ' ' r6
  let (tm, r8) ← time4 r7
  let r9 ← expectChar ' ' r8
  let r10 ← expectChar '-' r9
  let r11 ← expectChar ' ' r10
  let (sd, r12) ← senderTok r11
  let r13 ← expectChar ':' r12
  let r14 ← expectChar ' ' r13
  let msg := r14.takeWhile (fun c => c ≠ '\n')
  if msg.isEmpty then none
  else some (d1 ++ '/' :: d2 ++ '/' :: d3, tm, sd, msg)

/-! ### `datetime.strptime` for the two formats -/

/-- CPython `_strptime` field regex for `%m`: `1[0-2]|0[1-9]|[1-9]`, applied
to one slash-separated all-digit component (a partial match of the component
would leave a digit in front of the `/` literal and fail). -/
def matchMonth : List Char → Option Nat
  | [c] => if '1' ≤ c ∧ c ≤ '9' then some (digitVal c) else none
  | [c1, c2] =>
    if c1 = '1' ∧ '0' ≤ c2 ∧ c2 ≤ '2' then some (10 + digitVal c2)
    else if c1 = '0' ∧ '1' ≤ c2 ∧ c2 ≤ '9' then some (digitVal c2)
    else none
  | _ => none

/-- CPython `_strptime` field regex for `%d`:
`3[01]|[12]\d|0[1-9]|[1-9]| [1-9]`. -/
def matchDay : List Char → Option Nat
  | [c] => if '1' ≤ c ∧ c ≤ '9' then some (digitVal c) else none
  | [c1, c2] =>
    if c1 = '3' ∧ (c2 = '0' ∨ c2 = '1') then some (30 + digitVal c2)
    else if (c1 = '1' ∨ c1 = '2') ∧ c2.isDigit then
      some (10 * digitVal c1 + digitVal c2)
    else if c1 = '0' ∧ '1' ≤ c2 ∧ c2 ≤ '9' then some (digitVal c2)
    else if c1 = ' ' ∧ '1' ≤ c2 ∧ c2 ≤ '9' then some (digitVal c2)
    else none
  | _ => none

/-- `%y`: exactly two digits, with CPython's century pivot
(00-68 ↦ 2000-2068, 69-99 ↦ 1969-1999). -/
def matchYear2 : List Char → Option Nat
  | [c1, c2] =>
    if c1.isDigit ∧ c2.isDigit then
      let y := 10 * digitVal c1 + digitVal c2
      some (if y ≤ 68 then 2000 + y else 1900 + y)
    else none
  | _ => none

/-- `%Y`: exactly four digits; year 0000 is rejected by the `datetime`
constructor (`MINYEAR = 1`). -/
def matchYear4 : List Char → Option Nat
  | [c1, c2, c3, c4] =>
    if c1.isDigit ∧ c2.isDigit ∧ c3.isDigit ∧ c4.isDigit then
      let y := 1000 * digitVal c1 + 100 * digitVal c2 + 10 * digitVal c3 + digitVal c4
      if y = 0 then none else some y
    else none
  | _ => none

/-- Gregorian leap year, as used by `datetime`. -/
def isLeap (y : Nat) : Bool :=
  (y % 4 == 0 && y % 100 != 0) || y % 400 == 0

/-- Day count of a month, as checked by the `datetime` constructor. -/
def daysInMonth (y m : Nat) : Nat :=
  if m = 2 then (if isLeap y then 29 else 28)
  else if m = 4 ∨ m = 6 ∨ m = 9 ∨ m = 11 then 30
  else 31

/-- `datetime.strptime(date, "%m/%d/%y")` on a date token of the shape the
line regex guarantees (digit runs separated by `/`). -/
def strptime_mdy (ds : List Char) : Option Date :=
  match splitOnChar '/' ds with
  | [ms, dcs, ys] =>
    match matchMonth ms, matchDay dcs, matchYear2 ys with
    | some m, some d, some y =>
      if d ≤ daysInMonth y m then some ⟨y, m, d⟩ else none
    | _, _, _ => none
  | _ => none

/-- `datetime.strptime(date, "%d/%m/%Y")` on a date token of the shape the
line regex guarantees. -/
def strptime_dmY (ds : List Char) : Option Date :=
  match splitOnChar '/' ds with
  | [dcs, ms, ys] =>
    match matchDay dcs, matchMonth ms, matchYear4 ys with
    | some d, some m, some y =>
      if d ≤ daysInMonth y m then some ⟨y, m, d⟩ else none
    | _, _, _ => none
  | _ => none

/-! ### `parse_chat` -/

/-- The body of `parse_chat`'s loop for one line: match the pattern, then
try `%m/%d/%y`, then `%d/%m/%Y`, else skip (the `continue` on double
failure); the sender group is stripped. -/
def parseLine (line : List Char) : Option Record :=
  match matchLine line with
  | none => none
  | some (ds, ts, ss, ms) =>
    match strptime_mdy ds with
    | some d => some ⟨d, ts, pyStrip ss, ms⟩
    | none =>
      match strptime_dmY ds with
      | some d => some ⟨d, ts, pyStrip ss, ms⟩
      | none => none

/-- The `messages` list accumulated by `parse_chat` over a list of lines. -/
def parseLines (lines : List (List Char)) : List Record :=
  lines.filterMap parseLine

/-- `parse_chat`: split on newlines, parse each line, return `None` when no
line produced a record, else the data frame of the records. -/
def parse_chat (fileContent : List Char) : Option ChatDF :=
  let messages := parseLines (splitOnChar '\n' fileContent)
  if messages.isEmpty then none else some ⟨messages, none⟩

/-! ### `analyze_chat` -/

/-- The two filtering steps `df = df[df.date >= start]`,
`df = df[df.date <= end]` (each only when the bound is given). -/
def dateFilter (rows : List Record) (start_date end_date : Option Date) : List Record :=
  let r1 := match start_date with
    | some sd => rows.filter (fun r => dateLe sd r.date)
    | none => rows
  match end_date with
  | some ed => r1.filter (fun r => dateLe r.date ed)
  | none => r1

/-- `df.time.str[:2].astype(int)`: the hour bucket of one record. -/
def hourOfTime (t : List Char) : Nat := natOfDigits (t.take 2)

/-- The distinct elements of a list in order of first occurrence. -/
def uniqueFirstAux {α : Type} [DecidableEq α] (seen : List α) : List α → List α
  | [] => []
  | a :: rest =>
    if a ∈ seen then uniqueFirstAux seen rest
    else a :: uniqueFirstAux (a :: seen) rest

/-- Distinct elements, first occurrence first. -/
def uniqueFirst {α : Type} [DecidableEq α] (l : List α) : List α :=
  uniqueFirstAux [] l

/-- Sort key for pandas `value_counts` / `sort_values(ascending=False)`:
descending by count. -/
def byCountDesc {α : Type} (p q : α × Nat) : Prop := q.2 ≤ p.2

instance {α : Type} : DecidableRel (@byCountDesc α) :=
  fun p q => inferInstanceAs (Decidable (q.2 ≤ p.2))

/-- Ascending date order as a sort relation. -/
def dateAsc (a b : Date) : Prop := dateLe a b = true

instance : DecidableRel dateAsc :=
  fun a b => inferInstanceAs (Decidable (dateLe a b = true))

/-- `df.sender.value_counts()`: count per distinct sender, descending by
count. -/
def value_counts (ks : List (List Char)) : List (List Char × Nat) :=
  List.insertionSort byCountDesc ((uniqueFirst ks).map (fun k => (k, ks.count k)))

/-- `df.groupby(date).size().sort_values(ascending=False)`: group sizes per
date (groupby sorts keys ascending), then descending by size. -/
def daily_activity (ds : List Date) : List (Date × Nat) :=
  List.insertionSort byCountDesc
    ((List.insertionSort dateAsc (uniqueFirst ds)).map (fun k => (k, ds.count k)))

/-- `df.groupby(hour).size()`: group sizes keyed by hour, keys ascending. -/
def hourly_activity (hs : List Nat) : List (Nat × Nat) :=
  (List.insertionSort (fun a b : Nat => a ≤ b) (uniqueFirst hs)).map
    (fun k => (k, hs.count k))

/-- The triple returned by `analyze_chat` on the non-`None` path. -/
structure Summaries where
  participants : List (List Char × Nat)
  daily : List (Date × Nat)
  hourly : List (Nat × Nat)
deriving DecidableEq

/-- The three summaries of `analyze_chat` over the filtered rows. -/
def computeSummaries (rows : List Record) : Summaries :=
  { participants := value_counts (rows.map Record.sender)
    daily := daily_activity (rows.map Record.date)
    hourly := hourly_activity (rows.map (fun r => hourOfTime r.time)) }

/-- `analyze_chat(df, start_date, end_date)`.  The first component is the
returned value (`None` exactly when the input frame is `None` or empty, the
summaries otherwise - note that an empty *filtered* frame still yields
summaries).  The second component is the state of the caller's data-frame
object after the call: `df[mask]` copies, so when either bound is given the
caller's object is untouched; with no bound, `df["hour"] = ...` assigns the
hour column on the caller's object in place. -/
def analyze_chat (df : Option ChatDF) (start_date end_date : Option Date) :
    Option Summaries × Option ChatDF :=
  match df with
  | none => (none, none)
  | some d =>
    if d.rows.isEmpty then (none, some d)
    else
      let rows2 := dateFilter d.rows start_date end_date
      let localDf : ChatDF := ⟨rows2, some (rows2.map (fun r => hourOfTime r.time))⟩
      (some (computeSummaries rows2),
        if start_date.isSome || end_date.isSome then some d else some localDf)

/-- Well-formed time token: the shape `\d\d:\d\d` that the line regex
guarantees for the `time` field of every parsed record. -/
def timeWF (t : List Char) : Bool :=
  match t with
  | [a, b, c, d, e] => a.isDigit && b.isDigit && (c == ':') && d.isDigit && e.isDigit
  | _ => false

/-! ### Inversion lemmas for the scanner -/

theorem digits12_eq {cs d r : List Char} (h : digits12 cs = some (d, r)) :
    cs = d ++ r := by
  simp only [digits12] at h
  split at h
  · exact absurd h (by simp)
  · simp only [Option.some.injEq, Prod.mk.injEq] at h
    obtain ⟨rfl, rfl⟩ := h
    exact (List.takeWhile_append_dropWhile _ _).symm

theorem digits24_eq {cs d r : List Char} (h : digits24 cs = some (d, r)) :
    cs = d ++ r := by
  simp only [digits24] at h
  split at h
  · exact absurd h (by simp)
  · simp only [Option.some.injEq, Prod.mk.injEq] at h
    obtain ⟨rfl, rfl⟩ := h
    exact (List.takeWhile_append_dropWhile _ _).symm

theorem expectChar_eq {c : Char} {cs r : List Char} (h : expectChar c cs = some r) :
    cs = c :: r := by
  cases cs with
  | nil => exact absurd h (by simp [expectChar])
  | cons x rest =>
    simp only [expectChar] at h
    split at h
    · next hx =>
      simp only [Option.some.injEq] at h
      subst h; subst hx; rfl
    · exact absurd h (by simp)

theorem time4_eq {cs g r : List Char} (h : time4 cs = some (g, r)) :
    cs = g ++ r ∧ timeWF g = true := by
  unfold time4 at h
  split at h
  · next a b c d rest =>
    split at h
    · next hd =>
      simp only [Option.some.injEq, Prod.mk.injEq] at h
      obtain ⟨rfl, rfl⟩ := h
      exact ⟨rfl, by simp [timeWF, hd.1, hd.2.1, hd.2.2.1, hd.2.2.2]⟩
    · exact absurd h (by simp)
  · exact absurd h (by simp)

theorem senderTok_eq {cs s r : List Char} (h : senderTok cs = some (s, r)) :
    cs = s ++ r ∧ s ≠ [] := by
  simp only [senderTok] at h
  split at h
  · exact absurd h (by simp)
  · next hne =>
    simp only [Option.some.injEq, Prod.mk.injEq] at h
    obtain ⟨rfl, rfl⟩ := h
    refine ⟨(List.takeWhile_append_dropWhile _ _).symm, fun hc => ?_⟩
    rw [hc] at hne
    simp at hne

/-- Full inversion of the line match: the four groups tile the line (up to
the part of the line that the final `(.+)` group cannot cross, namely a
newline), the time group is well formed, and the sender group is non-empty
and colon-free. -/
theorem matchLine_inv {l ds ts ss ms : List Char}
    (h : matchLine l = some (ds, ts, ss, ms)) :
    ∃ rest, l = ds ++ ',' :: ' ' :: (ts ++ ' ' :: '-' :: ' ' :: (ss ++ ':' :: ' ' :: rest)) ∧
      ms = rest.takeWhile (fun c => c ≠ '\n') ∧ timeWF ts = true ∧ ss ≠ [] := by
  simp only [matchLine, bind, Option.bind_eq_some] at h
  obtain ⟨⟨d1, r1⟩, h1, h⟩ := h
  obtain ⟨r2, h2, h⟩ := h
  obtain ⟨⟨d2, r3⟩, h3, h⟩ := h
  obtain ⟨r4, h4, h⟩ := h
  obtain ⟨⟨d3, r5⟩, h5, h⟩ := h
  obtain ⟨r6, h6, h⟩ := h
  obtain ⟨r7, h7, h⟩ := h
  obtain ⟨⟨tm, r8⟩, h8, h⟩ := h
  obtain ⟨r9, h9, h⟩ := h
  obtain ⟨r10, h10, h⟩ := h
  obtain ⟨r11, h11, h⟩ := h
  obtain ⟨⟨sd, r12⟩, h12, h⟩ := h
  obtain ⟨r13, h13, h⟩ := h
  obtain ⟨r14, h14, h⟩ := h
  split at h
  · exact absurd h (by simp)
  · dsimp only at h h2 h4 h6 h9 h13
    simp only [Option.some.injEq, Prod.mk.injEq] at h
    obtain ⟨rfl, rfl, rfl, rfl⟩ := h
    obtain ⟨rfl, htm⟩ := time4_eq h8
    obtain ⟨rfl, hsd⟩ := senderTok_eq h12
    refine ⟨r14, ?_, by simp, htm, hsd⟩
    rw [digits12_eq h1, expectChar_eq h2, digits12_eq h3, expectChar_eq h4,
      digits24_eq h5, expectChar_eq h6, expectChar_eq h7, expectChar_eq h9,
      expectChar_eq h10, expectChar_eq h11, expectChar_eq h13, expectChar_eq h14]
    simp

/-- Inversion of `parseLine`: a produced record carries the time group, the
stripped sender group and the message group of the regex match. -/
theorem parseLine_inv {line : List Char} {r : Record} (h : parseLine line = some r) :
    ∃ ds ts ss, matchLine line = some (ds, ts, ss, r.message) ∧
      r.sender = pyStrip ss ∧ r.time = ts ∧ timeWF r.time = true := by
  unfold parseLine at h
  split at h
  · exact absurd h (by simp)
  · next ds ts ss ms hm =>
    have hts : timeWF ts = true := (matchLine_inv hm).choose_spec.2.2.1
    split at h
    · obtain rfl := by simpa using h
      exact ⟨ds, ts, ss, hm, rfl, rfl, hts⟩
    · split at h
      · obtain rfl := by simpa using h
        exact ⟨ds, ts, ss, hm, rfl, rfl, hts⟩
      · exact absurd h (by simp)

/-! ### Properties of `pyStrip` -/

theorem head?_dropWhile {α : Type} {p : α → Bool} {c : α} :
    ∀ {l : List α}, (l.dropWhile p).head? = some c → p c = false := by
  intro l
  induction l with
  | nil => intro h; simp [List.dropWhile] at h
  | cons a l ih =>
    intro h
    by_cases hp : p a
    · rw [List.dropWhile_cons_of_pos hp] at h
      exact ih h
    · rw [List.dropWhile_cons_of_neg hp] at h
      simp only [List.head?_cons, Option.some.injEq] at h
      subst h
      exact Bool.not_eq_true _ ▸ eq_false_of_ne_true hp

theorem getLast?_dropWhile {α : Type} {p : α → Bool} {c : α} :
    ∀ {l : List α}, (l.dropWhile p).getLast? = some c → l.getLast? = some c := by
  intro l
  induction l with
  | nil => intro h; simp [List.dropWhile] at h
  | cons a l ih =>
    intro h
    by_cases hp : p a
    · rw [List.dropWhile_cons_of_pos hp] at h
      have hl := ih h
      cases l with
      | nil => simp [List.dropWhile] at h
      | cons b t => rw [List.getLast?_cons_cons]; exact hl
    · rw [List.dropWhile_cons_of_neg hp] at h
      exact h

/-- A stripped string has no leading whitespace character. -/
theorem pyStrip_head {l : List Char} {c : Char}
    (h : (pyStrip l).head? = some c) : isPySpace c = false := by
  unfold pyStrip at h
  rw [List.head?_reverse] at h
  have h2 := getLast?_dropWhile h
  rw [List.getLast?_reverse] at h2
  exact head?_dropWhile h2

/-- A stripped string has no trailing whitespace character. -/
theorem pyStrip_getLast {l : List Char} {c : Char}
    (h : (pyStrip l).getLast? = some c) : isPySpace c = false := by
  unfold pyStrip at h
  rw [List.getLast?_reverse] at h
  exact head?_dropWhile h

/-! ### Counting lemmas for the summaries -/

theorem mem_uniqueFirstAux {α : Type} [DecidableEq α] {k : α} :
    ∀ {l seen : List α}, k ∈ uniqueFirstAux seen l → k ∈ l ∧ k ∉ seen := by
  intro l
  induction l with
  | nil => intro seen h; simp [uniqueFirstAux] at h
  | cons a rest ih =>
    intro seen h
    by_cases ha : a ∈ seen
    · rw [uniqueFirstAux, if_pos ha] at h
      obtain ⟨h1, h2⟩ := ih h
      exact ⟨List.mem_cons_of_mem _ h1, h2⟩
    · rw [uniqueFirstAux, if_neg ha] at h
      rcases List.mem_cons.mp h with rfl | h
      · exact ⟨List.mem_cons_self _ _, ha⟩
      · obtain ⟨h1, h2⟩ := ih h
        refine ⟨List.mem_cons_of_mem _ h1, fun hk => h2 (List.mem_cons_of_mem _ hk)⟩

theorem countP_notMem_split {α : Type} [DecidableEq α] [BEq α] [LawfulBEq α]
    (a : α) (seen : List α) (ha : a ∉ seen) :
    ∀ rest : List α, rest.countP (fun x => decide (x ∉ seen)) =
      rest.count a + rest.countP (fun x => decide (x ∉ a :: seen)) := by
  intro rest
  induction rest with
  | nil => simp
  | cons x xs ih =>
    rw [List.countP_cons, List.countP_cons, List.count_cons, ih]
    by_cases hxa : x = a
    · subst hxa
      have h2 : (decide (x ∉ x :: seen)) = false := by simp
      have h3 : (decide (x ∉ seen)) = true := by simpa using ha
      rw [h2, h3]
      simp
      omega
    · have h4 : (x ∉ a :: seen) ↔ (x ∉ seen) := by simp [hxa]
      rw [decide_eq_decide.mpr h4]
      have h5 : (x == a) = false := by simp [hxa]
      rw [h5]
      cases h6 : decide (x ∉ seen) <;> simp [h6] <;> omega

theorem uniqueFirstAux_sum {α : Type} [DecidableEq α] [BEq α] [LawfulBEq α] :
    ∀ (l seen : List α),
      ((uniqueFirstAux seen l).map (fun k => l.count k)).sum =
        l.countP (fun x => decide (x ∉ seen)) := by
  intro l
  induction l with
  | nil => intro seen; simp [uniqueFirstAux]
  | cons a rest ih =>
    intro seen
    by_cases ha : a ∈ seen
    · rw [uniqueFirstAux, if_pos ha, List.countP_cons]
      have hmap : (uniqueFirstAux seen rest).map (fun k => (a :: rest).count k) =
          (uniqueFirstAux seen rest).map (fun k => rest.count k) := by
        refine List.map_congr_left (fun k hk => ?_)
        have hne : a ≠ k := fun he => (mem_uniqueFirstAux hk).2 (he ▸ ha)
        rw [List.count_cons]
        simp [hne]
      rw [hmap, ih seen]
      simp [ha]
    · rw [uniqueFirstAux, if_neg ha, List.map_cons, List.sum_cons, List.countP_cons]
      have hmap : (uniqueFirstAux (a :: seen) rest).map (fun k => (a :: rest).count k) =
          (uniqueFirstAux (a :: seen) rest).map (fun k => rest.count k) := by
        refine List.map_congr_left (fun k hk => ?_)
        have hne : a ≠ k := fun he =>
          (mem_uniqueFirstAux hk).2 (he ▸ List.mem_cons_self a seen)
        rw [List.count_cons]
        simp [hne]
      rw [hmap, ih (a :: seen), List.count_cons_self,
        countP_notMem_split a seen ha rest]
      simp [ha]
      omega

/-- The counts attached to the distinct keys of a list add up to its
length. -/
theorem sum_counts_uniqueFirst {α : Type} [DecidableEq α] [BEq α] [LawfulBEq α] (l : List α) :
    ((uniqueFirst l).map (fun k => l.count k)).sum = l.length := by
  rw [uniqueFirst, uniqueFirstAux_sum l []]
  simp

/-- `value_counts` totals the length of its input. -/
theorem value_counts_sum (ks : List (List Char)) :
    ((value_counts ks).map Prod.snd).sum = ks.length := by
  unfold value_counts
  have hp := (List.perm_insertionSort byCountDesc
    ((uniqueFirst ks).map (fun k => (k, ks.count k)))).map Prod.snd
  rw [hp.sum_eq, List.map_map]
  have : (Prod.snd ∘ fun k => (k, ks.count k)) = fun k => ks.count k := rfl
  rw [this]
  exact sum_counts_uniqueFirst ks

/-- `hourly_activity` totals the length of its input. -/
theorem hourly_activity_sum (hs : List Nat) :
    ((hourly_activity hs).map Prod.snd).sum = hs.length := by
  unfold hourly_activity
  rw [List.map_map]
  have : (Prod.snd ∘ fun k => (k, hs.count k)) = fun k => hs.count k := rfl
  rw [this]
  have hp := (List.perm_insertionSort (fun a b : Nat => a ≤ b)
    (uniqueFirst hs)).map (fun k => hs.count k)
  rw [hp.sum_eq]
  exact sum_counts_uniqueFirst hs

/-- Every key of `hourly_activity` occurs in the input list. -/
theorem hourly_activity_keys {hs : List Nat} {p : Nat × Nat}
    (h : p ∈ hourly_activity hs) : p.1 ∈ hs := by
  unfold hourly_activity at h
  obtain ⟨k, hk, rfl⟩ := List.mem_map.mp h
  have := (List.perm_insertionSort (fun a b : Nat => a ≤ b) (uniqueFirst hs)).mem_iff.mp hk
  exact (mem_uniqueFirstAux this).1

/-! ### Date order and filtering -/

theorem dateLe_refl (d : Date) : dateLe d d = true := by
  simp [dateLe]

/-- Membership in the filtered rows: both bound checks, each applied only
when its bound is given. -/
theorem mem_dateFilter {rows : List Record} {s e : Option Date} {r : Record} :
    r ∈ dateFilter rows s e ↔
      r ∈ rows ∧ (∀ sd, s = some sd → dateLe sd r.date = true) ∧
        (∀ ed, e = some ed → dateLe r.date ed = true) := by
  unfold dateFilter
  cases s <;> cases e <;> simp [List.mem_filter] <;> tauto

theorem digitVal_le9 {c : Char} (h : c.isDigit = true) : digitVal c ≤ 9 := by
  simp [Char.isDigit] at h
  obtain ⟨h1, h2⟩ := h
  have h3 : c.val.toNat ≤ 57 := h2
  unfold digitVal Char.toNat
  omega

/-- On a well-formed `hh:mm` token the derived hour bucket is the two-digit
value, hence at most 99. -/
theorem hourOfTime_le_99 {t : List Char} (h : timeWF t = true) : hourOfTime t ≤ 99 := by
  unfold timeWF at h
  split at h
  · next a b c d e =>
    simp only [Bool.and_eq_true] at h
    obtain ⟨⟨⟨⟨ha, hb⟩, hc⟩, hd⟩, he⟩ := h
    have h1 := digitVal_le9 ha
    have h2 := digitVal_le9 hb
    simp only [hourOfTime, natOfDigits, List.take, List.foldl]
    omega
  · exact absurd h (by simp)

/-! ### Claim theorems -/

/-- C1: date resolution follows the fixed priority order: on a matched line
the `%m/%d/%y` interpretation is used whenever it succeeds, the `%d/%m/%Y`
interpretation only when the first fails, and a line whose date token fails
both is skipped.  In particular the token `03/04/23` resolves under the
first format to month 3, day 4, year 2023 (so the fallback is never
consulted for it). -/
theorem date_format_priority :
    strptime_mdy ("03/04/23".toList) = some ⟨2023, 3, 4⟩ ∧
    (∀ line ds ts ss ms, matchLine line = some (ds, ts, ss, ms) →
      (∀ d, strptime_mdy ds = some d → parseLine line = some ⟨d, ts, pyStrip ss, ms⟩) ∧
      (strptime_mdy ds = none → ∀ d, strptime_dmY ds = some d →
        parseLine line = some ⟨d, ts, pyStrip ss, ms⟩) ∧
      (strptime_mdy ds = none → strptime_dmY ds = none → parseLine line = none)) := by
  refine ⟨by decide, fun line ds ts ss ms hm => ⟨?_, ?_, ?_⟩⟩
  · intro d hd
    simp [parseLine, hm, hd]
  · intro h1 d h2
    simp [parseLine, hm, h1, h2]
  · intro h1 h2
    simp [parseLine, hm, h1, h2]

theorem date_format_priority_witness :
    parseLine ("03/04/23, 10:00 - Alice: hi".toList) =
      some ⟨⟨2023, 3, 4⟩, "10:00".toList, pyStrip ("Alice".toList), "hi".toList⟩ :=
  (date_format_priority.2 ("03/04/23, 10:00 - Alice: hi".toList)
    ("03/04/23".toList) ("10:00".toList) ("Alice".toList) ("hi".toList)
    (by decide)).1 ⟨2023, 3, 4⟩ (by decide)

/-- C2: the parser returns `None` exactly when no line yields a record, and
whenever it returns a frame the frame's rows are the parsed records and are
non-empty. -/
theorem parse_chat_no_data (t : List Char) :
    (parse_chat t = none ↔ parseLines (splitOnChar '\n' t) = []) ∧
    (∀ df, parse_chat t = some df →
      df.rows = parseLines (splitOnChar '\n' t) ∧ df.rows ≠ []) := by
  simp only [parse_chat]
  cases hm : parseLines (splitOnChar '\n' t) with
  | nil => simp
  | cons a l =>
    simp only [List.isEmpty_cons, Bool.false_eq_true, if_false]
    constructor
    · simp
    · intro df hdf
      cases hdf
      simp

theorem parse_chat_no_data_witness :
    (parse_chat ("no valid line here".toList) = none ↔
      parseLines (splitOnChar '\n' ("no valid line here".toList)) = []) ∧
    ChatDF.rows ⟨[⟨⟨2023, 12, 1⟩, "09:15".toList, "Alice".toList, "hi".toList⟩], none⟩ =
        parseLines (splitOnChar '\n' ("12/1/23, 09:15 - Alice: hi".toList)) ∧
      ChatDF.rows ⟨[⟨⟨2023, 12, 1⟩, "09:15".toList, "Alice".toList, "hi".toList⟩], none⟩ ≠ [] :=
  ⟨(parse_chat_no_data ("no valid line here".toList)).1,
   (parse_chat_no_data ("12/1/23, 09:15 - Alice: hi".toList)).2
     ⟨[⟨⟨2023, 12, 1⟩, "09:15".toList, "Alice".toList, "hi".toList⟩], none⟩ (by decide)⟩

/-- C9: the parser is total and skips malformed lines locally: a line that
fails the grammar yields no record, a line whose date token fails both
formats yields no record, and removing such a line from the input leaves the
records of the remaining lines unchanged. -/
theorem parser_skips_malformed_lines :
    (∀ line, matchLine line = none → parseLine line = none) ∧
    (∀ line ds ts ss ms, matchLine line = some (ds, ts, ss, ms) →
      strptime_mdy ds = none → strptime_dmY ds = none → parseLine line = none) ∧
    (∀ pre post bad, parseLine bad = none →
      parseLines (pre ++ bad :: post) = parseLines (pre ++ post)) := by
  refine ⟨fun line h => by simp [parseLine, h],
    fun line ds ts ss ms hm h1 h2 => by simp [parseLine, hm, h1, h2],
    fun pre post bad hb => ?_⟩
  unfold parseLines
  rw [List.filterMap_append, List.filterMap_append, List.filterMap_cons_none hb]

theorem parser_skips_malformed_lines_witness :
    parseLines (["12/1/23, 09:15 - Alice: hi".toList] ++
        "not a message line".toList :: ["12/2/23, 23:05 - Bob: bye".toList]) =
      parseLines (["12/1/23, 09:15 - Alice: hi".toList] ++
        ["12/2/23, 23:05 - Bob: bye".toList]) :=
  parser_skips_malformed_lines.2.2 ["12/1/23, 09:15 - Alice: hi".toList]
    ["12/2/23, 23:05 - Bob: bye".toList] ("not a message line".toList) (by decide)

/-- C5: the date filter is inclusive at both ends: a record is kept exactly
when it passes `date >= start` (when given) and `date <= end` (when given),
and in particular a record whose date equals either bound is retained. -/
theorem date_filter_inclusive :
    (∀ rows s e (r : Record), r ∈ dateFilter rows s e ↔
      r ∈ rows ∧ (∀ sd, s = some sd → dateLe sd r.date = true) ∧
        (∀ ed, e = some ed → dateLe r.date ed = true)) ∧
    (∀ rows (sd ed : Date) (r : Record), r ∈ rows → dateLe sd ed = true →
      ((r.date = sd → r ∈ dateFilter rows (some sd) (some ed)) ∧
       (r.date = ed → r ∈ dateFilter rows (some sd) (some ed)))) := by
  refine ⟨fun rows s e r => mem_dateFilter, fun rows sd ed r hr hle => ⟨?_, ?_⟩⟩
  · intro hd
    refine mem_dateFilter.mpr ⟨hr, ?_, ?_⟩
    · intro sd2 hs2
      obtain rfl : sd = sd2 := by injection hs2
      rw [hd]
      exact dateLe_refl _
    · intro ed2 he2
      obtain rfl : ed = ed2 := by injection he2
      rw [hd]
      exact hle
  · intro hd
    refine mem_dateFilter.mpr ⟨hr, ?_, ?_⟩
    · intro sd2 hs2
      obtain rfl : sd = sd2 := by injection hs2
      rw [hd]
      exact hle
    · intro ed2 he2
      obtain rfl : ed = ed2 := by injection he2
      rw [hd]
      exact dateLe_refl _

theorem date_filter_inclusive_witness :
    (⟨⟨2023, 12, 2⟩, "23:05".toList, "Alice".toList, "bye".toList⟩ : Record) ∈
      dateFilter [⟨⟨2023, 12, 2⟩, "23:05".toList, "Alice".toList, "bye".toList⟩]
        (some ⟨2023, 12, 2⟩) (some ⟨2023, 12, 31⟩) :=
  (date_filter_inclusive.2
    [⟨⟨2023, 12, 2⟩, "23:05".toList, "Alice".toList, "bye".toList⟩]
    ⟨2023, 12, 2⟩ ⟨2023, 12, 31⟩
    ⟨⟨2023, 12, 2⟩, "23:05".toList, "Alice".toList, "bye".toList⟩
    (by decide) (by decide)).1 rfl

/-- C6: for every line that yields a record, the record's sender carries no
leading or trailing whitespace, and (the line containing no newline, as the
lines handed to the matcher by `parse_chat` never do) the message is the
literal remainder of the line after the matched
`<date>, <time> - <sender>: ` prefix. -/
theorem sender_trimmed_message_rest :
    ∀ line (r : Record), parseLine line = some r →
      (∀ c, r.sender.head? = some c → isPySpace c = false) ∧
      (∀ c, r.sender.getLast? = some c → isPySpace c = false) ∧
      ('\n' ∉ line → ∃ ds ts ss, matchLine line = some (ds, ts, ss, r.message) ∧
        line = ds ++ ',' :: ' ' :: (ts ++ ' ' :: '-' :: ' ' :: (ss ++ ':' :: ' ' :: r.message))) := by
  intro line r h
  obtain ⟨ds, ts, ss, hm, hsender, htime, hwf⟩ := parseLine_inv h
  refine ⟨?_, ?_, ?_⟩
  · intro c hc
    rw [hsender] at hc
    exact pyStrip_head hc
  · intro c hc
    rw [hsender] at hc
    exact pyStrip_getLast hc
  · intro hnl
    obtain ⟨rest, hl, hms, _, _⟩ := matchLine_inv hm
    have hr : ∀ x ∈ rest, decide (x ≠ '\n') = true := by
      intro c hcr
      rw [decide_eq_true_eq]
      intro heq
      apply hnl
      rw [hl]
      subst heq
      simp [hcr]
    have hrest : rest.takeWhile (fun c => c ≠ '\n') = rest :=
      List.takeWhile_eq_self_iff.mpr hr
    have hmsg : r.message = rest := by rw [hms, hrest]
    exact ⟨ds, ts, ss, hm, by rw [hmsg]; exact hl⟩

theorem sender_trimmed_message_rest_witness :
    ∃ ds ts ss, matchLine ("1/2/23, 10:00 - Bob : hi".toList) =
        some (ds, ts, ss, "hi".toList) ∧
      "1/2/23, 10:00 - Bob : hi".toList =
        ds ++ ',' :: ' ' :: (ts ++ ' ' :: '-' :: ' ' :: (ss ++ ':' :: ' ' :: "hi".toList)) :=
  (sender_trimmed_message_rest ("1/2/23, 10:00 - Bob : hi".toList)
    ⟨⟨2023, 1, 2⟩, "10:00".toList, "Bob".toList, "hi".toList⟩
    (by decide)).2.2 (by decide)

/-- C7: the per-participant counts of the participant summary add up to the
number of filtered records. -/
theorem participant_counts_sum (rows : List Record) (hc : Option (List Nat))
    (s e : Option Date) (summ : Summaries)
    (h : (analyze_chat (some ⟨rows, hc⟩) s e).1 = some summ) :
    (summ.participants.map Prod.snd).sum = (dateFilter rows s e).length := by
  simp only [analyze_chat] at h
  split at h
  · simp at h
  · simp only [Option.some.injEq] at h
    subst h
    simp only [computeSummaries]
    rw [value_counts_sum, List.length_map]

theorem participant_counts_sum_witness :
    ((Summaries.participants ⟨[("Alice".toList, 2), ("Bob".toList, 1)],
        [(⟨2023, 12, 1⟩, 2), (⟨2023, 12, 2⟩, 1)], [(9, 2), (23, 1)]⟩).map Prod.snd).sum =
      (dateFilter
        [⟨⟨2023, 12, 1⟩, "09:15".toList, "Alice".toList, "hi".toList⟩,
         ⟨⟨2023, 12, 1⟩, "09:40".toList, "Bob".toList, "hello".toList⟩,
         ⟨⟨2023, 12, 2⟩, "23:05".toList, "Alice".toList, "bye".toList⟩]
        none none).length :=
  participant_counts_sum
    [⟨⟨2023, 12, 1⟩, "09:15".toList, "Alice".toList, "hi".toList⟩,
     ⟨⟨2023, 12, 1⟩, "09:40".toList, "Bob".toList, "hello".toList⟩,
     ⟨⟨2023, 12, 2⟩, "23:05".toList, "Alice".toList, "bye".toList⟩]
    none none none
    ⟨[("Alice".toList, 2), ("Bob".toList, 1)],
      [(⟨2023, 12, 1⟩, 2), (⟨2023, 12, 2⟩, 1)], [(9, 2), (23, 1)]⟩
    (by decide)

/-- C4 (amended): the hourly counts add up to the number of filtered
records, and every hourly bucket key is the integer value of the first two
digits of the record's time token, hence at most 99 (the code performs no
24-hour validation, so 23 is not an upper bound; see the counterexample). -/
theorem hourly_counts_sum_and_bound (rows : List Record) (hc : Option (List Nat))
    (s e : Option Date) (summ : Summaries)
    (hwf : ∀ r ∈ rows, timeWF r.time = true)
    (h : (analyze_chat (some ⟨rows, hc⟩) s e).1 = some summ) :
    (summ.hourly.map Prod.snd).sum = (dateFilter rows s e).length ∧
      ∀ p ∈ summ.hourly, p.1 ≤ 99 := by
  simp only [analyze_chat] at h
  split at h
  · simp at h
  · simp only [Option.some.injEq] at h
    subst h
    simp only [computeSummaries]
    constructor
    · rw [hourly_activity_sum, List.length_map]
    · intro p hp
      have hmem := hourly_activity_keys hp
      obtain ⟨r, hr, heq⟩ := List.mem_map.mp hmem
      have hrrows : r ∈ rows := (mem_dateFilter.mp hr).1
      rw [← heq]
      exact hourOfTime_le_99 (hwf r hrrows)

theorem hourly_counts_sum_and_bound_witness :
    ((Summaries.hourly ⟨[("Alice".toList, 2), ("Bob".toList, 1)],
        [(⟨2023, 12, 1⟩, 2), (⟨2023, 12, 2⟩, 1)], [(9, 2), (23, 1)]⟩).map Prod.snd).sum =
      (dateFilter
        [⟨⟨2023, 12, 1⟩, "09:15".toList, "Alice".toList, "hi".toList⟩,
         ⟨⟨2023, 12, 1⟩, "09:40".toList, "Bob".toList, "hello".toList⟩,
         ⟨⟨2023, 12, 2⟩, "23:05".toList, "Alice".toList, "bye".toList⟩]
        none none).length ∧
    ∀ p ∈ Summaries.hourly ⟨[("Alice".toList, 2), ("Bob".toList, 1)],
        [(⟨2023, 12, 1⟩, 2), (⟨2023, 12, 2⟩, 1)], [(9, 2), (23, 1)]⟩, p.1 ≤ 99 :=
  hourly_counts_sum_and_bound
    [⟨⟨2023, 12, 1⟩, "09:15".toList, "Alice".toList, "hi".toList⟩,
     ⟨⟨2023, 12, 1⟩, "09:40".toList, "Bob".toList, "hello".toList⟩,
     ⟨⟨2023, 12, 2⟩, "23:05".toList, "Alice".toList, "bye".toList⟩]
    none none none
    ⟨[("Alice".toList, 2), ("Bob".toList, 1)],
      [(⟨2023, 12, 1⟩, 2), (⟨2023, 12, 2⟩, 1)], [(9, 2), (23, 1)]⟩
    (by decide) (by decide)

/-- C4 (counterexample to the stated bucket range): a record parsed from a
line with time token `99:59` flows through the pipeline and produces the
hourly bucket 99, which exceeds 23. -/
theorem hourly_bucket_beyond_23 :
    ∃ summ, (analyze_chat (parse_chat ("01/02/23, 99:59 - Bob: x".toList)) none none).1 =
        some summ ∧ ∃ p ∈ summ.hourly, 23 < p.1 :=
  ⟨⟨[("Bob".toList, 1)], [(⟨2023, 1, 2⟩, 1)], [(99, 1)]⟩, by decide,
    ⟨(99, 1), by decide, by decide⟩⟩

/-- C10: the regex accepts any `\d\d:\d\d` time token with no clock-validity
check: the line with time `99:99` produces a record, its hour bucket is the
integer value of the first two digits, 99, and the hourly summary carries
that bucket. -/
theorem no_time_validation :
    parse_chat ("01/02/23, 99:99 - Alice: hi".toList) =
      some ⟨[⟨⟨2023, 1, 2⟩, "99:99".toList, "Alice".toList, "hi".toList⟩], none⟩ ∧
    hourOfTime ("99:99".toList) = 99 ∧
    (analyze_chat (parse_chat ("01/02/23, 99:99 - Alice: hi".toList)) none none).1 =
      some ⟨[("Alice".toList, 1)], [(⟨2023, 1, 2⟩, 1)], [(99, 1)]⟩ := by
  decide

/-- C3 (code behaviour at the failing input): a non-empty frame whose rows
are all filtered out by the date bounds does *not* yield the `None` result;
`analyze_chat` returns empty summaries (and leaves the caller's frame
untouched), so the caller cannot distinguish this from ordinary output. -/
theorem analyze_chat_empty_filter_result :
    analyze_chat
        (some ⟨[⟨⟨2023, 12, 1⟩, "09:15".toList, "Alice".toList, "hi".toList⟩], none⟩)
        (some ⟨2024, 1, 1⟩) (some ⟨2024, 1, 1⟩) =
      (some ⟨[], [], []⟩,
        some ⟨[⟨⟨2023, 12, 1⟩, "09:15".toList, "Alice".toList, "hi".toList⟩], none⟩) ∧
    (some (⟨[], [], []⟩ : Summaries) : Option Summaries) ≠ none := by
  constructor
  · decide
  · simp

/-- C8: aggregation is idempotent, also through the state of the caller's
frame: running `analyze_chat` again on the frame object as the first call
left it, with the same bounds, returns the same value and the same state;
and the record rows of the caller's frame are never changed (only the
derived hour column may be assigned). -/
theorem analyze_chat_idempotent (df : Option ChatDF) (s e : Option Date) :
    analyze_chat ((analyze_chat df s e).2) s e = analyze_chat df s e ∧
    (∀ a b, df = some a → (analyze_chat df s e).2 = some b → b.rows = a.rows) := by
  cases df with
  | none => simp [analyze_chat]
  | some d =>
    by_cases he : d.rows.isEmpty
    · have h2 : analyze_chat (some d) s e = (none, some d) := by
        simp [analyze_chat, he]
      refine ⟨by rw [h2]; exact h2, ?_⟩
      intro a b ha hb
      rw [h2] at hb
      cases ha
      cases hb
      rfl
    · by_cases hcopy : s.isSome || e.isSome
      · have h2 : (analyze_chat (some d) s e).2 = some d := by
          simp [analyze_chat, he, hcopy]
        refine ⟨by rw [h2], ?_⟩
        intro a b ha hb
        rw [h2] at hb
        cases ha
        cases hb
        rfl
      · obtain ⟨rfl, rfl⟩ : s = none ∧ e = none := by
          cases s <;> cases e <;> simp_all
        have hfilter : dateFilter d.rows none none = d.rows := rfl
        have h2 : analyze_chat (some d) none none =
            (some (computeSummaries d.rows),
              some ⟨d.rows, some (d.rows.map (fun r => hourOfTime r.time))⟩) := by
          simp [analyze_chat, he, hfilter]
        refine ⟨?_, ?_⟩
        · rw [h2]
          simp [analyze_chat, he, dateFilter]
        · intro a b ha hb
          cases ha
          rw [h2] at hb
          cases hb
          rfl

theorem analyze_chat_idempotent_witness :
    analyze_chat
        ((analyze_chat (some ⟨[⟨⟨2023, 12, 1⟩, "09:15".toList, "Alice".toList, "hi".toList⟩],
            none⟩) none none).2) none none =
      analyze_chat (some ⟨[⟨⟨2023, 12, 1⟩, "09:15".toList, "Alice".toList, "hi".toList⟩],
        none⟩) none none ∧
    ChatDF.rows ⟨[⟨⟨2023, 12, 1⟩, "09:15".toList, "Alice".toList, "hi".toList⟩], some [9]⟩ =
      ChatDF.rows ⟨[⟨⟨2023, 12, 1⟩, "09:15".toList, "Alice".toList, "hi".toList⟩], none⟩ :=
  ⟨(analyze_chat_idempotent
      (some ⟨[⟨⟨2023, 12, 1⟩, "09:15".toList, "Alice".toList, "hi".toList⟩], none⟩)
      none none).1,
   (analyze_chat_idempotent
      (some ⟨[⟨⟨2023, 12, 1⟩, "09:15".toList, "Alice".toList, "hi".toList⟩], none⟩)
      none none).2
     ⟨[⟨⟨2023, 12, 1⟩, "09:15".toList, "Alice".toList, "hi".toList⟩], none⟩
     ⟨[⟨⟨2023, 12, 1⟩, "09:15".toList, "Alice".toList, "hi".toList⟩], some [9]⟩
     rfl (by decide)⟩

example : parseLine ("03/04/23, 10:00 - Alice: hi".toList) =
    some ⟨⟨2023, 3, 4⟩, "10:00".toList, "Alice".toList, "hi".toList⟩ := by decide

example : parse_chat ("12/1/23, 09:15 - Alice: hi\nnot a message line\n12/2/23, 23:05 - Bob: bye".toList) =
    some ⟨[⟨⟨2023, 12, 1⟩, "09:15".toList, "Alice".toList, "hi".toList⟩,
           ⟨⟨2023, 12, 2⟩, "23:05".toList, "Bob".toList, "bye".toList⟩], none⟩ := by decide

example : strptime_mdy ("02/30/23".toList) = none := by decide

example : strptime_dmY ("30/04/2023".toList) = some ⟨2023, 4, 30⟩ := by decide
